import Mathlib

/-!
Shallow embedding of the room/peer session coordinator of the
ASL-Text-Video-Conference backend (src/services/room.service.ts,
src/webRTC/roomState.ts, and the media handlers of src/webRTC/media.ts),
together with proofs about its room-lifecycle and membership operations.

JavaScript `Map` objects (insertion-ordered, `set` on an existing key
updates in place) are embedded as insertion-ordered association lists.
`Date` timestamps are embedded as `Nat`.  Code that throws is embedded as
operations returning an explicit optional error message; since the source
mutates global state before an exception can propagate, each operation
returns the (possibly mutated) registry alongside the error.
-/

namespace ASLConf

/-- Lookup in a JS `Map` embedded as an association list (`Map.prototype.get`). -/
def mget {α : Type} (m : List (String × α)) (k : String) : Option α :=
  match m with
  | [] => none
  | (k1, v) :: rest => if k1 = k then some v else mget rest k

/-- `Map.prototype.set`: update in place if the key is present (keeping its
position), otherwise append at the end. -/
def mset {α : Type} (m : List (String × α)) (k : String) (v : α) :
    List (String × α) :=
  match m with
  | [] => [(k, v)]
  | (k1, v1) :: rest =>
    if k1 = k then (k, v) :: rest else (k1, v1) :: mset rest k v

/-- `Map.prototype.delete`: remove the entry under the key (the first one,
which is the only one since JS map keys are unique). -/
def mdelete {α : Type} (m : List (String × α)) (k : String) :
    List (String × α) :=
  match m with
  | [] => []
  | (k1, v1) :: rest => if k1 = k then rest else (k1, v1) :: mdelete rest k

/-- Mutation of the value object stored under a key, in place (the JS code
obtains the object via `get` and assigns to its fields). -/
def mupdate {α : Type} (m : List (String × α)) (k : String) (f : α → α) :
    List (String × α) :=
  match m with
  | [] => []
  | (k1, v1) :: rest =>
    if k1 = k then (k1, f v1) :: rest else (k1, v1) :: mupdate rest k f

/-- `Map.prototype.values`, in insertion order. -/
def mvalues {α : Type} (m : List (String × α)) : List α :=
  m.map Prod.snd

/-- JS map keys are unique; this holds for every map built with `mset` /
`mdelete` from the empty map. -/
def keysNodup {α : Type} (m : List (String × α)) : Bool :=
  match m with
  | [] => true
  | (k, _) :: rest => (mget rest k).isNone && keysNodup rest

-- ============================================================================
-- DATA MODEL (src/webRTC/roomState.ts)
-- ============================================================================

/-- Room status, `"ongoing" | "ended" | "cancelled"` in the source. -/
inductive RoomStatus
  | ongoing
  | ended
  | cancelled
deriving DecidableEq

/-- A mediasoup producer handle, as referenced by the coordinator
(`producer.id`, `producer.kind`). -/
structure Producer where
  id : String
  kind : String
deriving DecidableEq

/-- A mediasoup consumer handle, as referenced by the coordinator. -/
structure Consumer where
  id : String
  producerId : String
deriving DecidableEq

/-- A WebRTC transport handle, as referenced by the coordinator. -/
structure Transport where
  id : String
deriving DecidableEq

/-- `Peer` of roomState.ts.  `rtpCapabilities` is an opaque descriptor set
once by the SET_RTP_CAPABILITIES handler, embedded as an opaque string. -/
structure Peer where
  userId : String
  userName : String
  userEmail : String
  socketId : String
  isHost : Bool
  isMuted : Bool
  isVideoEnabled : Bool
  joinedAt : Nat
  rtpCapabilities : Option String
  transports : List (String × Transport)
  producers : List (String × Producer)
  consumers : List (String × Consumer)
deriving DecidableEq

/-- `RoomState` of roomState.ts.  The `router` field is an opaque media-engine
handle; the only coordinator-visible operation on it (`canConsume`) is passed
explicitly to the consumer-creation handler below. -/
structure RoomState where
  code : String
  title : String
  description : Option String
  createdBy : String
  createdAt : Nat
  peers : List (String × Peer)
  status : RoomStatus
  hostName : String
  hostEmail : String
deriving DecidableEq

/-- The global `rooms` registry, `Map<MeetingId, RoomState>`. -/
def Registry : Type := List (String × RoomState)

instance : DecidableEq Registry := by
  unfold Registry
  infer_instance

instance : Membership (String × RoomState) Registry := by
  unfold Registry
  infer_instance

/-- `getPeer` of roomState.ts. -/
def getPeer (reg : Registry) (roomId userId : String) : Option Peer :=
  match mget reg roomId with
  | none => none
  | some room => mget room.peers userId

-- ============================================================================
-- SERVICE INPUT SHAPES (room.service.ts)
-- ============================================================================

/-- `CreateRoomData`. -/
structure CreateRoomData where
  title : String
  description : Option String
  host : String
  hostName : String
  hostEmail : String
deriving DecidableEq

/-- `JoinRoomData`. -/
structure JoinRoomData where
  code : String
  userId : String
  userName : String
  userEmail : String
deriving DecidableEq

/-- `ParticipantData` as passed to addParticipant / updateParticipant. -/
structure ParticipantData where
  userId : String
  userName : String
  userEmail : String
  socketId : String
  joinedAt : Nat
  isHost : Bool
  isMuted : Bool
  isVideoEnabled : Bool
deriving DecidableEq

/-- The participant projection inside `RoomData` (createRoomData). -/
structure ParticipantView where
  userId : String
  userName : String
  userEmail : String
  socketId : String
  joinedAt : Nat
  isHost : Bool
  isMuted : Bool
  isVideoEnabled : Bool
deriving DecidableEq

/-- The `RoomData` view returned to callers (createRoomData), restricted to
the fields computed from coordinator state. -/
structure RoomData where
  code : String
  title : String
  description : Option String
  host : String
  status : RoomStatus
  hostName : String
  hostEmail : String
  participantCount : Nat
  participants : List ParticipantView
deriving DecidableEq

/-- Externally visible broadcasts (SOCKET_EVENTS.BROADCAST). -/
inductive Broadcast
  | roomCreated (code : String)
  | roomListUpdated
  | participantJoined (code socketId userId userName : String)
  | participantLeft (code socketId userId userName : String)
  | participantStatusUpdated (code userId : String)
  | hostTransferred (code newHostId newHostName : String)
  | roomEnded (code : String)
deriving DecidableEq

/-- Result of one coordinator operation: the registry after all of the
operation's (non-rolled-back) mutations, the broadcasts emitted, the room
codes handed to `scheduleRoomCleanup`, and the thrown error message, if
any. -/
structure OpResult where
  rooms : Registry
  broadcasts : List Broadcast
  scheduled : List String
  err : Option String
deriving DecidableEq

-- ============================================================================
-- OPERATIONS (room.service.ts)
-- ============================================================================

/-- `createRoomState`: fresh RoomState with an empty peer map and status
"ongoing".  (`router` is opaque and not part of the embedded state.) -/
def createRoomState (meetingId : String) (data : CreateRoomData) (now : Nat) :
    RoomState :=
  { code := meetingId
    title := data.title
    description := data.description
    hostName := data.hostName
    hostEmail := data.hostEmail
    createdBy := data.host
    createdAt := now
    peers := []
    status := RoomStatus.ongoing }

/-- Projection of a `Peer` for `createRoomData`. -/
def peerToView (p : Peer) : ParticipantView :=
  { userId := p.userId
    userName := p.userName
    userEmail := p.userEmail
    socketId := p.socketId
    joinedAt := p.joinedAt
    isHost := p.isHost
    isMuted := p.isMuted
    isVideoEnabled := p.isVideoEnabled }

/-- `createRoomData`: the standardized `RoomData` view of a `RoomState`.
The host display fields scan the participants for `isHost`, defaulting to
"Unknown" / "" when no host is present. -/
def createRoomData (rs : RoomState) : RoomData :=
  let participants := (mvalues rs.peers).map peerToView
  { code := rs.code
    title := rs.title
    description := rs.description
    host := rs.createdBy
    status := rs.status
    hostName := ((participants.find? (fun p => p.isHost)).map
      (fun p => p.userName)).getD "Unknown"
    hostEmail := ((participants.find? (fun p => p.isHost)).map
      (fun p => p.userEmail)).getD ""
    participantCount := participants.length
    participants := participants }

/-- `createRoom`: generate a meeting id (an external input here), build the
RoomState, store it in the registry, best-effort persist (no in-memory
effect), broadcast room-created and the room list, and return the room view.
The requester's socket is passed to the method but never used to admit a
peer. -/
def createRoom (reg : Registry) (data : CreateRoomData) (meetingId : String)
    (now : Nat) : OpResult × RoomData :=
  let rs := createRoomState meetingId data now
  let reg1 := mset reg meetingId rs
  ({ rooms := reg1
     broadcasts := [Broadcast.roomCreated meetingId, Broadcast.roomListUpdated]
     scheduled := []
     err := none },
   createRoomData ((mget reg1 meetingId).getD rs))

/-- The fresh `Peer` record built by `addParticipant` (and by
`updateParticipant` when the entry is absent): `isMuted` is forced to
`false`, `isVideoEnabled` to `true`, and `joinedAt` to the current time,
regardless of the passed data; no media handles yet. -/
def freshPeer (pd : ParticipantData) (now : Nat) : Peer :=
  { userId := pd.userId
    userName := pd.userName
    userEmail := pd.userEmail
    socketId := pd.socketId
    isHost := pd.isHost
    isMuted := false
    isVideoEnabled := true
    joinedAt := now
    rtpCapabilities := none
    transports := []
    producers := []
    consumers := [] }

/-- `addParticipant`: `getRoom` (throws "Room not found" if absent), then
insert the fresh peer under its userId. -/
def addParticipant (reg : Registry) (meetingId : String)
    (pd : ParticipantData) (now : Nat) : Except String Registry :=
  match mget reg meetingId with
  | none => Except.error "Room not found"
  | some room =>
    Except.ok (mset reg meetingId
      { room with peers := mset room.peers pd.userId (freshPeer pd now) })

/-- `updateParticipant`: `getRoom`, then if a peer is already stored under
the userId overwrite exactly its `socketId`, `isHost`, `isMuted` and
`isVideoEnabled` fields in place; otherwise insert a fresh peer. -/
def updateParticipant (reg : Registry) (meetingId : String)
    (pd : ParticipantData) (now : Nat) : Except String Registry :=
  match mget reg meetingId with
  | none => Except.error "Room not found"
  | some room =>
    match mget room.peers pd.userId with
    | some _ =>
      Except.ok (mset reg meetingId
        { room with peers := mupdate room.peers pd.userId (fun p =>
            { p with
              socketId := pd.socketId
              isHost := pd.isHost
              isMuted := pd.isMuted
              isVideoEnabled := pd.isVideoEnabled }) })
    | none =>
      Except.ok (mset reg meetingId
        { room with peers := mset room.peers pd.userId (freshPeer pd now) })

/-- The `ParticipantData` literal that `joinRoom` passes to both
`addParticipant` and `updateParticipant`: always `isHost := false`,
`isMuted := false`, `isVideoEnabled := true`. -/
def joinParticipantData (data : JoinRoomData) (sockId : String) (now : Nat) :
    ParticipantData :=
  { userId := data.userId
    userName := data.userName
    userEmail := data.userEmail
    socketId := sockId
    joinedAt := now
    isHost := false
    isMuted := false
    isVideoEnabled := true }

/-- `joinRoom`: validate the room exists and is ongoing; if the identity is
already among the room's peers reattach via `updateParticipant`, otherwise
insert via `addParticipant`; then notify the room and republish the room
list.  Thrown errors are wrapped by `handleError` with the context
"Failed to join room". -/
def joinRoom (reg : Registry) (data : JoinRoomData) (sockId : String)
    (now : Nat) : OpResult × Option RoomData :=
  match mget reg data.code with
  | none =>
    ({ rooms := reg, broadcasts := [], scheduled := []
       err := some "Failed to join room: Room not found" }, none)
  | some room =>
    if room.status ≠ RoomStatus.ongoing then
      ({ rooms := reg, broadcasts := [], scheduled := []
         err := some "Failed to join room: Room is not active" }, none)
    else
      let userNotInRoom :=
        ((mvalues room.peers).find? (fun p => p.userId == data.userId)).isNone
      let inserted :=
        if userNotInRoom then
          addParticipant reg data.code (joinParticipantData data sockId now) now
        else
          updateParticipant reg data.code (joinParticipantData data sockId now)
            now
      match inserted with
      | Except.error e =>
        ({ rooms := reg, broadcasts := [], scheduled := []
           err := some ("Failed to join room: " ++ e) }, none)
      | Except.ok reg1 =>
        ({ rooms := reg1
           broadcasts :=
             [Broadcast.participantJoined data.code sockId data.userId
                data.userName,
              Broadcast.roomListUpdated]
           scheduled := []
           err := none },
         (mget reg1 data.code).map createRoomData)

/-- `validateHostPermission`: the host is a stored peer with `isHost` set
and a matching `userId`. -/
def findHostFor (room : RoomState) (userId : String) : Option Peer :=
  (mvalues room.peers).find? (fun p => p.isHost && p.userId == userId)

/-- `endRoom`: `getRoom`, `validateHostPermission` (throws "Only the host
can end the room" for a non-host), then set status to ended, broadcast
room-ended, schedule deferred cleanup, best-effort persistence update, and
republish the room list.  Thrown errors are wrapped with
"Failed to end room". -/
def endRoom (reg : Registry) (meetingId userId : String) : OpResult :=
  match mget reg meetingId with
  | none =>
    { rooms := reg, broadcasts := [], scheduled := []
      err := some "Failed to end room: Room not found" }
  | some room =>
    match findHostFor room userId with
    | none =>
      { rooms := reg, broadcasts := [], scheduled := []
        err := some "Failed to end room: Only the host can end the room" }
    | some _ =>
      { rooms := mset reg meetingId { room with status := RoomStatus.ended }
        broadcasts := [Broadcast.roomEnded meetingId,
          Broadcast.roomListUpdated]
        scheduled := [meetingId]
        err := none }

/-- `transferHost`: promote the first peer in the peer map's iteration
order, update `createdBy`, and broadcast host-transferred.  Both call sites
enter only with a nonempty peer map (on an empty one the source would crash
dereferencing `undefined`). -/
def transferHost (room : RoomState) (meetingId : String) :
    RoomState × List Broadcast :=
  match room.peers with
  | [] => (room, [])
  | (k, p) :: rest =>
    ({ room with
       peers := (k, { p with isHost := true }) :: rest
       createdBy := p.userId },
     [Broadcast.hostTransferred meetingId p.userId p.userName])

/-- `leaveRoom`: `getRoom`, `getParticipant` (values scan by userId),
`removeParticipant` (delete under the participant's userId), then
`handleParticipantLeave`: transfer host if the leaver was host and peers
remain, else call `endRoom` if no peers remain (passing the leaver's own
userId as the requester); finally notify participant-left and republish the
room list.  Thrown errors are wrapped with "Failed to leave room"; the
participant removal is not rolled back on error. -/
def leaveRoom (reg : Registry) (meetingId userId : String) : OpResult :=
  match mget reg meetingId with
  | none =>
    { rooms := reg, broadcasts := [], scheduled := []
      err := some "Failed to leave room: Room not found" }
  | some room =>
    match (mvalues room.peers).find? (fun p => p.userId == userId) with
    | none =>
      { rooms := reg, broadcasts := [], scheduled := []
        err := some "Failed to leave room: User is not in the room" }
    | some participant =>
      let room1 := { room with peers := mdelete room.peers participant.userId }
      let reg1 := mset reg meetingId room1
      if participant.isHost && decide (0 < room1.peers.length) then
        let tr := transferHost room1 meetingId
        { rooms := mset reg1 meetingId tr.1
          broadcasts := tr.2 ++
            [Broadcast.participantLeft meetingId participant.socketId
               participant.userId participant.userName,
             Broadcast.roomListUpdated]
          scheduled := []
          err := none }
      else if room1.peers.length = 0 then
        let r := endRoom reg1 meetingId userId
        match r.err with
        | some e =>
          { rooms := r.rooms, broadcasts := r.broadcasts
            scheduled := r.scheduled
            err := some ("Failed to leave room: " ++ e) }
        | none =>
          { rooms := r.rooms
            broadcasts := r.broadcasts ++
              [Broadcast.participantLeft meetingId participant.socketId
                 participant.userId participant.userName,
               Broadcast.roomListUpdated]
            scheduled := r.scheduled
            err := none }
      else
        { rooms := reg1
          broadcasts :=
            [Broadcast.participantLeft meetingId participant.socketId
               participant.userId participant.userName,
             Broadcast.roomListUpdated]
          scheduled := []
          err := none }

/-- `handleDisconnectedParticipant`: remove the peer; if it was host,
transfer host when peers remain, otherwise set the room ended and schedule
cleanup; then notify participant-left. -/
def handleDisconnectedParticipant (room : RoomState) (participant : Peer)
    (meetingId : String) : RoomState × List Broadcast × List String :=
  let room1 := { room with peers := mdelete room.peers participant.userId }
  let stepped :=
    if participant.isHost then
      if 0 < room1.peers.length then
        let tr := transferHost room1 meetingId
        (tr.1, tr.2, ([] : List String))
      else
        ({ room1 with status := RoomStatus.ended },
         ([] : List Broadcast), [meetingId])
    else (room1, ([] : List Broadcast), ([] : List String))
  (stepped.1,
   stepped.2.1 ++
     [Broadcast.participantLeft meetingId participant.socketId
        participant.userId participant.userName],
   stepped.2.2)

/-- One registry entry of the `handleDisconnect` loop body. -/
def disconnectRoomStep (sockId code : String) (room : RoomState) :
    RoomState × List Broadcast × List String × Bool :=
  match (mvalues room.peers).find? (fun p => p.socketId == sockId) with
  | none => (room, [], [], false)
  | some participant =>
    let h := handleDisconnectedParticipant room participant code
    (h.1, h.2.1, h.2.2, true)

/-- The `handleDisconnect` iteration over `rooms.entries()`. -/
def disconnectLoop (entries : List (String × RoomState)) (sockId : String) :
    List (String × RoomState) × List Broadcast × List String × Bool :=
  match entries with
  | [] => ([], [], [], false)
  | (code, room) :: rest =>
    let s := disconnectRoomStep sockId code room
    let r := disconnectLoop rest sockId
    ((code, s.1) :: r.1, s.2.1 ++ r.2.1, s.2.2.1 ++ r.2.2.1,
     s.2.2.2 || r.2.2.2)

/-- `handleDisconnect`: reconcile a lost connection against every room;
republish the room list only if some room was updated.  Never throws. -/
def handleDisconnect (reg : Registry) (sockId : String) : OpResult :=
  let r := disconnectLoop reg sockId
  { rooms := r.1
    broadcasts := r.2.1 ++
      (if r.2.2.2 then [Broadcast.roomListUpdated] else [])
    scheduled := r.2.2.1
    err := none }

/-- The body of the `setTimeout` scheduled by `scheduleRoomCleanup`: delete
the registry entry under the code (unconditionally) and republish the room
list. -/
def roomCleanupTask (reg : Registry) (meetingId : String) :
    Registry × List Broadcast :=
  (mdelete reg meetingId, [Broadcast.roomListUpdated])

/-- `updateParticipantStatus`: partial in-place update of `isMuted` /
`isVideoEnabled` on the participant found by userId, then a status
broadcast.  (`getRoom` / `getParticipant` throw when absent, unwrapped.) -/
def updateParticipantStatus (reg : Registry) (meetingId userId : String)
    (newMuted newVideo : Option Bool) : OpResult :=
  match mget reg meetingId with
  | none =>
    { rooms := reg, broadcasts := [], scheduled := []
      err := some "Room not found" }
  | some room =>
    match (mvalues room.peers).find? (fun p => p.userId == userId) with
    | none =>
      { rooms := reg, broadcasts := [], scheduled := []
        err := some "User is not in the room" }
    | some participant =>
      { rooms := mset reg meetingId
          { room with peers := mupdate room.peers participant.userId (fun p =>
              { p with
                isMuted := newMuted.getD p.isMuted
                isVideoEnabled := newVideo.getD p.isVideoEnabled }) }
        broadcasts := [Broadcast.participantStatusUpdated meetingId userId]
        scheduled := []
        err := none }

-- ============================================================================
-- CONSUMER CREATION (CREATE_CONSUMER handler, src/webRTC/media.ts)
-- ============================================================================

/-- The CREATE_CONSUMER socket handler: room lookup, `getPeer`, capability
check, transport lookup, producer search across all peers, engine
`router.canConsume` check, then create the consumer (engine call, yielding
a fresh consumer id) and record it under the peer.  `canConsume` is the
media-engine collaborator, a function of the producer id and the peer's
capability descriptor.  Returns the registry and the error sent through the
acknowledgement callback, if any. -/
def createConsumerHandler (reg : Registry)
    (canConsume : String → String → Bool)
    (code userId producerId transportId consumerId : String) :
    Registry × Option String :=
  match mget reg code with
  | none => (reg, some "Room not found")
  | some room =>
    match getPeer reg code userId with
    | none => (reg, some "Peer not found")
    | some peer =>
      match peer.rtpCapabilities with
      | none => (reg, some "RTP capabilities not set")
      | some caps =>
        match mget peer.transports transportId with
        | none => (reg, some "Transport not found")
        | some _ =>
          match ((mvalues room.peers).flatMap
              (fun p => mvalues p.producers)).find?
              (fun pr => pr.id == producerId) with
          | none => (reg, some "Producer not found")
          | some _ =>
            if canConsume producerId caps then
              (mset reg code
                { room with peers := mupdate room.peers userId (fun p =>
                    { p with consumers :=
                        (mset p.consumers consumerId
                          { id := consumerId, producerId := producerId }) }) },
               none)
            else (reg, some "Cannot consume")

-- ============================================================================
-- OPERATION SEQUENCES
-- ============================================================================

/-- The coordinator operations a claim's "sequence of operations" ranges
over; external inputs (fresh ids, current time, socket ids) are carried by
the operation. -/
inductive Op
  | create (data : CreateRoomData) (meetingId : String) (now : Nat)
  | join (data : JoinRoomData) (sockId : String) (now : Nat)
  | leave (meetingId userId : String)
  | endR (meetingId userId : String)
  | disconnect (sockId : String)
  | cleanup (meetingId : String)
  | updStatus (meetingId userId : String) (newMuted newVideo : Option Bool)
  | consume (canConsume : String → String → Bool)
      (code userId producerId transportId consumerId : String)

/-- Effect of one operation on the registry. -/
def stepOp (reg : Registry) (op : Op) : Registry :=
  match op with
  | Op.create data meetingId now => (createRoom reg data meetingId now).1.rooms
  | Op.join data sockId now => (joinRoom reg data sockId now).1.rooms
  | Op.leave meetingId userId => (leaveRoom reg meetingId userId).rooms
  | Op.endR meetingId userId => (endRoom reg meetingId userId).rooms
  | Op.disconnect sockId => (handleDisconnect reg sockId).rooms
  | Op.cleanup meetingId => (roomCleanupTask reg meetingId).1
  | Op.updStatus meetingId userId newMuted newVideo =>
    (updateParticipantStatus reg meetingId userId newMuted newVideo).rooms
  | Op.consume canConsume code userId producerId transportId consumerId =>
    (createConsumerHandler reg canConsume code userId producerId transportId
      consumerId).1

/-- The registry reached by a sequence of operations from process start
(empty registry). -/
def runOps (ops : List Op) : Registry :=
  ops.foldl stepOp []

-- ============================================================================
-- MAP LEMMAS
-- ============================================================================

theorem mget_mset_self {α : Type} (m : List (String × α)) (k : String)
    (v : α) : mget (mset m k v) k = some v := by
  induction m with
  | nil => simp [mset, mget]
  | cons e rest ih =>
    obtain ⟨k1, v1⟩ := e
    by_cases h : k1 = k <;> simp [mset, mget, h, ih]

theorem mget_mset_ne {α : Type} (m : List (String × α)) (k k1 : String)
    (v : α) (h : k1 ≠ k) : mget (mset m k v) k1 = mget m k1 := by
  induction m with
  | nil => simp [mset, mget, Ne.symm h]
  | cons e rest ih =>
    obtain ⟨k2, v2⟩ := e
    by_cases h2 : k2 = k
    · subst h2
      simp [mset, mget, Ne.symm h]
    · simp only [mset, h2, if_false]
      by_cases h3 : k2 = k1 <;> simp [mget, h3, ih]

theorem mset_mset_same {α : Type} (m : List (String × α)) (k : String)
    (v w : α) : mset (mset m k v) k w = mset m k w := by
  induction m with
  | nil => simp [mset]
  | cons e rest ih =>
    obtain ⟨k1, v1⟩ := e
    by_cases h : k1 = k <;> simp [mset, h, ih]

theorem mget_mupdate_self {α : Type} (m : List (String × α)) (k : String)
    (f : α → α) : mget (mupdate m k f) k = (mget m k).map f := by
  induction m with
  | nil => simp [mupdate, mget]
  | cons e rest ih =>
    obtain ⟨k1, v1⟩ := e
    by_cases h : k1 = k <;> simp [mupdate, mget, h, ih]

theorem mget_mupdate_ne {α : Type} (m : List (String × α)) (k k1 : String)
    (f : α → α) (h : k1 ≠ k) : mget (mupdate m k f) k1 = mget m k1 := by
  induction m with
  | nil => simp [mupdate]
  | cons e rest ih =>
    obtain ⟨k2, v2⟩ := e
    by_cases h2 : k2 = k
    · subst h2
      simp [mupdate, mget, Ne.symm h]
    · simp only [mupdate, h2, if_false]
      by_cases h3 : k2 = k1 <;> simp [mget, h3, ih]

theorem mupdate_keys {α : Type} (m : List (String × α)) (k : String)
    (f : α → α) : (mupdate m k f).map Prod.fst = m.map Prod.fst := by
  induction m with
  | nil => simp [mupdate]
  | cons e rest ih =>
    obtain ⟨k1, v1⟩ := e
    by_cases h : k1 = k <;> simp [mupdate, h, ih]

theorem mupdate_length {α : Type} (m : List (String × α)) (k : String)
    (f : α → α) : (mupdate m k f).length = m.length := by
  have h := congrArg List.length (mupdate_keys m k f)
  simpa using h

theorem mget_mdelete_ne {α : Type} (m : List (String × α)) (k k1 : String)
    (h : k1 ≠ k) : mget (mdelete m k) k1 = mget m k1 := by
  induction m with
  | nil => simp [mdelete]
  | cons e rest ih =>
    obtain ⟨k2, v2⟩ := e
    by_cases h2 : k2 = k
    · subst h2
      simp [mdelete, mget, Ne.symm h]
    · simp only [mdelete, h2, if_false]
      by_cases h3 : k2 = k1 <;> simp [mget, h3, ih]

theorem mget_mdelete_self {α : Type} (m : List (String × α)) (k : String)
    (hnd : keysNodup m = true) : mget (mdelete m k) k = none := by
  induction m with
  | nil => simp [mdelete, mget]
  | cons e rest ih =>
    obtain ⟨k1, v1⟩ := e
    simp only [keysNodup, Bool.and_eq_true, Option.isNone_iff_eq_none] at hnd
    by_cases h : k1 = k
    · subst h
      simpa [mdelete] using hnd.1
    · simp [mdelete, mget, h, ih hnd.2]

theorem isNone_mget_mset {α : Type} (m : List (String × α)) (k k1 : String)
    (v : α) : (mget (mset m k v) k1).isNone =
      ((mget m k1).isNone && !(k1 = k : Bool)) := by
  by_cases h : k1 = k
  · subst h
    simp [mget_mset_self]
  · simp [mget_mset_ne m k k1 v h, h]

theorem keysNodup_mset {α : Type} (m : List (String × α)) (k : String)
    (v : α) (hnd : keysNodup m = true) : keysNodup (mset m k v) = true := by
  induction m with
  | nil => simp [mset, keysNodup, mget]
  | cons e rest ih =>
    obtain ⟨k1, v1⟩ := e
    simp only [keysNodup, Bool.and_eq_true] at hnd
    by_cases h : k1 = k
    · subst h
      simpa [mset, keysNodup] using hnd
    · simp only [mset, h, if_false, keysNodup, Bool.and_eq_true]
      refine ⟨?_, ih hnd.2⟩
      rw [isNone_mget_mset]
      simp [hnd.1, h]

theorem isNone_mget_mdelete {α : Type} (m : List (String × α))
    (k k1 : String) (h : (mget m k1).isNone = true) :
    (mget (mdelete m k) k1).isNone = true := by
  induction m with
  | nil => simp [mdelete, mget]
  | cons e rest ih =>
    obtain ⟨k2, v2⟩ := e
    simp only [mget] at h
    by_cases h2 : k2 = k1
    · simp [h2] at h
    · simp only [h2, if_false] at h
      by_cases h3 : k2 = k
      · simpa [mdelete, h3] using h
      · simp [mdelete, mget, h2, h3, ih h]

theorem keysNodup_mdelete {α : Type} (m : List (String × α)) (k : String)
    (hnd : keysNodup m = true) : keysNodup (mdelete m k) = true := by
  induction m with
  | nil => simp [mdelete, keysNodup]
  | cons e rest ih =>
    obtain ⟨k1, v1⟩ := e
    simp only [keysNodup, Bool.and_eq_true] at hnd
    by_cases h : k1 = k
    · simpa [mdelete, h] using hnd.2
    · simp only [mdelete, h, if_false, keysNodup, Bool.and_eq_true]
      exact ⟨isNone_mget_mdelete rest k k1 hnd.1, ih hnd.2⟩

theorem isNone_mget_mupdate {α : Type} (m : List (String × α))
    (k k1 : String) (f : α → α) :
    (mget (mupdate m k f) k1).isNone = (mget m k1).isNone := by
  by_cases h : k1 = k
  · subst h
    simp [mget_mupdate_self]
  · simp [mget_mupdate_ne m k k1 f h]

theorem keysNodup_mupdate {α : Type} (m : List (String × α)) (k : String)
    (f : α → α) (hnd : keysNodup m = true) :
    keysNodup (mupdate m k f) = true := by
  induction m with
  | nil => simp [mupdate, keysNodup]
  | cons e rest ih =>
    obtain ⟨k1, v1⟩ := e
    simp only [keysNodup, Bool.and_eq_true] at hnd
    by_cases h : k1 = k
    · subst h
      simp only [mupdate, if_pos rfl, keysNodup, Bool.and_eq_true]
      exact hnd
    · simp only [mupdate, h, if_false, keysNodup, Bool.and_eq_true]
      exact ⟨by rw [isNone_mget_mupdate]; exact hnd.1, ih hnd.2⟩

theorem mem_values_of_mget {α : Type} (m : List (String × α)) (k : String)
    (v : α) (h : mget m k = some v) : v ∈ mvalues m := by
  induction m with
  | nil => simp [mget] at h
  | cons e rest ih =>
    obtain ⟨k1, v1⟩ := e
    simp only [mget] at h
    by_cases h1 : k1 = k
    · simp only [h1, if_true, Option.some.injEq] at h
      simp [mvalues, h]
    · simp only [h1, if_false] at h
      simp [mvalues] at ih ⊢
      exact Or.inr (ih h)

-- ============================================================================
-- HOST COUNTING AND WELL-FORMEDNESS
-- ============================================================================

/-- Number of peers flagged as host in a peer map. -/
def hostsOf (m : List (String × Peer)) : Nat :=
  ((mvalues m).filter (fun p => p.isHost)).length

/-- Every peer is stored under its own userId (`peers.set(userId, {userId,
...})` is the only insertion the source performs). -/
def keysMatch (m : List (String × Peer)) : Bool :=
  m.all (fun e => e.2.userId == e.1)

/-- Well-formedness of a peer map: unique keys, key = userId, and at most
one host. -/
def peersWF (m : List (String × Peer)) : Bool :=
  keysNodup m && keysMatch m && decide (hostsOf m ≤ 1)

/-- Well-formedness of the registry: every stored room has a well-formed
peer map. -/
def regWF (reg : Registry) : Bool :=
  reg.all (fun e => peersWF e.2.peers)

/-- The at-most-one-host invariant alone, over the whole registry. -/
def atMostOneHost (reg : Registry) : Bool :=
  reg.all (fun e => decide (hostsOf e.2.peers ≤ 1))

theorem atMostOneHost_of_regWF (reg : Registry) (h : regWF reg = true) :
    atMostOneHost reg = true := by
  unfold regWF at h
  unfold atMostOneHost
  rw [List.all_eq_true] at h ⊢
  intro e he
  have := h e he
  simp only [peersWF, Bool.and_eq_true] at this
  exact this.2

theorem hostsOf_cons (k : String) (p : Peer) (rest : List (String × Peer)) :
    hostsOf ((k, p) :: rest) =
      (if p.isHost then 1 else 0) + hostsOf rest := by
  by_cases h : p.isHost
  · simp [hostsOf, mvalues, List.filter_cons, h]
    omega
  · simp [hostsOf, mvalues, List.filter_cons, h]

theorem hostsOf_mset_false (m : List (String × Peer)) (k : String) (p : Peer)
    (hp : p.isHost = false) : hostsOf (mset m k p) ≤ hostsOf m := by
  induction m with
  | nil => simp [mset, hostsOf_cons, hostsOf, hp, mvalues]
  | cons e rest ih =>
    obtain ⟨k1, p1⟩ := e
    by_cases h : k1 = k
    · simp only [mset, h, if_true]
      rw [hostsOf_cons, hostsOf_cons, hp]
      simp only [Bool.false_eq_true, if_false, Nat.zero_add]
      exact Nat.le_add_left _ _
    · simp only [mset, h, if_false]
      rw [hostsOf_cons, hostsOf_cons]
      exact Nat.add_le_add_left ih _

theorem hostsOf_mdelete_le (m : List (String × Peer)) (k : String) :
    hostsOf (mdelete m k) ≤ hostsOf m := by
  induction m with
  | nil => simp [mdelete]
  | cons e rest ih =>
    obtain ⟨k1, p1⟩ := e
    by_cases h : k1 = k
    · simp only [mdelete, h, if_true]
      rw [hostsOf_cons]
      exact Nat.le_add_left _ _
    · simp only [mdelete, h, if_false]
      rw [hostsOf_cons, hostsOf_cons]
      exact Nat.add_le_add_left ih _

theorem hostsOf_mupdate_le_false (m : List (String × Peer)) (k : String)
    (f : Peer → Peer) (hf : ∀ p, (f p).isHost = false) :
    hostsOf (mupdate m k f) ≤ hostsOf m := by
  induction m with
  | nil => simp [mupdate]
  | cons e rest ih =>
    obtain ⟨k1, p1⟩ := e
    by_cases h : k1 = k
    · simp only [mupdate, h, if_true]
      rw [hostsOf_cons, hostsOf_cons, hf p1]
      simp only [Bool.false_eq_true, if_false, Nat.zero_add]
      exact Nat.le_add_left _ _
    · simp only [mupdate, h, if_false]
      rw [hostsOf_cons, hostsOf_cons]
      exact Nat.add_le_add_left ih _

theorem hostsOf_mupdate_eq_preserve (m : List (String × Peer)) (k : String)
    (f : Peer → Peer) (hf : ∀ p, (f p).isHost = p.isHost) :
    hostsOf (mupdate m k f) = hostsOf m := by
  induction m with
  | nil => simp [mupdate]
  | cons e rest ih =>
    obtain ⟨k1, p1⟩ := e
    by_cases h : k1 = k
    · simp only [mupdate, h, if_true]
      rw [hostsOf_cons, hostsOf_cons, hf p1]
    · simp only [mupdate, h, if_false]
      rw [hostsOf_cons, hostsOf_cons, ih]

theorem one_le_hostsOf_of_mem (m : List (String × Peer)) (p : Peer)
    (hm : p ∈ mvalues m) (hp : p.isHost = true) : 1 ≤ hostsOf m := by
  induction m with
  | nil => simp [mvalues] at hm
  | cons e rest ih =>
    obtain ⟨k1, p1⟩ := e
    simp only [mvalues, List.map_cons, List.mem_cons] at hm
    rw [hostsOf_cons]
    rcases hm with h | h
    · subst h
      simp [hp]
    · have := ih (by simpa [mvalues] using h)
      omega

/-- A peer stored among the values of a well-keyed map is retrievable under
its userId. -/
theorem mget_isSome_of_mem_values (m : List (String × Peer)) (p : Peer)
    (hkm : keysMatch m = true) (hmem : p ∈ mvalues m) :
    ∃ q, mget m p.userId = some q := by
  induction m with
  | nil => simp [mvalues] at hmem
  | cons e rest ih =>
    obtain ⟨k1, p1⟩ := e
    simp only [keysMatch, List.all_cons, Bool.and_eq_true, beq_iff_eq] at hkm
    simp only [mvalues, List.map_cons, List.mem_cons] at hmem
    by_cases hk : k1 = p.userId
    · exact ⟨p1, by simp [mget, hk]⟩
    · rcases hmem with h | h
      · exfalso
        apply hk
        rw [← hkm.1]
        rw [h]
      · obtain ⟨q, hq⟩ :=
          ih (by simpa [keysMatch] using hkm.2) (by simpa [mvalues] using h)
        exact ⟨q, by simp [mget, hk, hq]⟩

/-- Deleting the (unique) entry of a host peer from a well-keyed peer map
with at most one host leaves no host. -/
theorem hostsOf_mdelete_host (m : List (String × Peer)) (p : Peer)
    (hnd : keysNodup m = true) (hkm : keysMatch m = true)
    (hmem : p ∈ mvalues m) (hp : p.isHost = true)
    (hle : hostsOf m ≤ 1) : hostsOf (mdelete m p.userId) = 0 := by
  induction m with
  | nil => simp [mvalues] at hmem
  | cons e rest ih =>
    obtain ⟨k1, p1⟩ := e
    simp only [keysNodup, Bool.and_eq_true] at hnd
    simp only [keysMatch, List.all_cons, Bool.and_eq_true, beq_iff_eq] at hkm
    simp only [mvalues, List.map_cons, List.mem_cons] at hmem
    rcases hmem with hmem | hmem
    · subst hmem
      have hk : k1 = p.userId := by rw [← hkm.1]
      subst hk
      have hdel : mdelete ((p.userId, p) :: rest) p.userId = rest := by
        simp [mdelete]
      rw [hdel]
      rw [hostsOf_cons] at hle
      rw [hp] at hle
      simp only [if_true] at hle
      omega
    · have hmem2 : p ∈ mvalues rest := by simpa [mvalues] using hmem
      have hne : k1 ≠ p.userId := by
        intro hkeq
        obtain ⟨q, hq⟩ := mget_isSome_of_mem_values rest p
          (by simpa [keysMatch] using hkm.2) hmem2
        have hsome : (mget rest k1).isNone = true := hnd.1
        rw [hkeq, hq] at hsome
        simp at hsome
      simp only [mdelete, hne, if_false]
      rw [hostsOf_cons] at hle ⊢
      have hge : 1 ≤ hostsOf rest := one_le_hostsOf_of_mem rest p hmem2 hp
      have hb : (if p1.isHost then 1 else 0) = 0 := by
        by_cases hp1 : p1.isHost
        · rw [hp1] at hle
          simp only [if_true] at hle
          omega
        · simp [hp1]
      rw [hb] at hle ⊢
      have hle2 : hostsOf rest ≤ 1 := by omega
      rw [ih hnd.2 (by simpa [keysMatch] using hkm.2) hmem2 hle2]

-- ============================================================================
-- WELL-FORMEDNESS PRESERVATION
-- ============================================================================

theorem mget_all {α : Type} (m : List (String × α)) (f : String × α → Bool)
    (k : String) (v : α) (hall : m.all f = true) (h : mget m k = some v) :
    f (k, v) = true := by
  induction m with
  | nil => simp [mget] at h
  | cons e rest ih =>
    obtain ⟨k1, v1⟩ := e
    simp only [List.all_cons, Bool.and_eq_true] at hall
    simp only [mget] at h
    by_cases h1 : k1 = k
    · simp only [h1, if_true, Option.some.injEq] at h
      subst h1
      subst h
      exact hall.1
    · simp only [h1, if_false] at h
      exact ih hall.2 h

theorem list_all_mset {α : Type} (m : List (String × α))
    (f : String × α → Bool) (k : String) (v : α) (hall : m.all f = true)
    (hv : f (k, v) = true) : (mset m k v).all f = true := by
  induction m with
  | nil => simp [mset, hv]
  | cons e rest ih =>
    obtain ⟨k1, v1⟩ := e
    simp only [List.all_cons, Bool.and_eq_true] at hall
    by_cases h : k1 = k <;>
      simp only [mset, h, if_true, if_false, List.all_cons, Bool.and_eq_true]
    · exact ⟨hv, hall.2⟩
    · exact ⟨hall.1, ih hall.2⟩

theorem list_all_mdelete {α : Type} (m : List (String × α))
    (f : String × α → Bool) (k : String) (hall : m.all f = true) :
    (mdelete m k).all f = true := by
  induction m with
  | nil => simp [mdelete]
  | cons e rest ih =>
    obtain ⟨k1, v1⟩ := e
    simp only [List.all_cons, Bool.and_eq_true] at hall
    by_cases h : k1 = k <;>
      simp only [mdelete, h, if_true, if_false, List.all_cons,
        Bool.and_eq_true]
    · exact hall.2
    · exact ⟨hall.1, ih hall.2⟩

theorem keysMatch_mset (m : List (String × Peer)) (k : String) (v : Peer)
    (hkm : keysMatch m = true) (hv : v.userId = k) :
    keysMatch (mset m k v) = true := by
  unfold keysMatch at hkm ⊢
  exact list_all_mset m _ k v hkm (by simp [hv])

theorem keysMatch_mdelete (m : List (String × Peer)) (k : String)
    (hkm : keysMatch m = true) : keysMatch (mdelete m k) = true := by
  unfold keysMatch at hkm ⊢
  exact list_all_mdelete m _ k hkm

theorem keysMatch_mupdate (m : List (String × Peer)) (k : String)
    (f : Peer → Peer) (hkm : keysMatch m = true)
    (hf : ∀ p, (f p).userId = p.userId) : keysMatch (mupdate m k f) = true := by
  induction m with
  | nil => simp [mupdate, keysMatch]
  | cons e rest ih =>
    obtain ⟨k1, v1⟩ := e
    simp only [keysMatch, List.all_cons, Bool.and_eq_true, beq_iff_eq]
      at hkm ⊢
    by_cases h : k1 = k <;>
      simp only [mupdate, h, if_true, if_false, List.all_cons,
        Bool.and_eq_true, beq_iff_eq]
    · exact ⟨by rw [hf v1, hkm.1, h], hkm.2⟩
    · refine ⟨hkm.1, ?_⟩
      have := ih hkm.2
      simpa [keysMatch] using this

theorem peersWF_iff (m : List (String × Peer)) :
    peersWF m = true ↔
      keysNodup m = true ∧ keysMatch m = true ∧ hostsOf m ≤ 1 := by
  simp [peersWF, Bool.and_eq_true, and_assoc]

theorem regWF_mget (reg : Registry) (k : String) (room : RoomState)
    (h : regWF reg = true) (hg : mget reg k = some room) :
    peersWF room.peers = true :=
  mget_all reg _ k room h hg

theorem regWF_mset (reg : Registry) (k : String) (room : RoomState)
    (h : regWF reg = true) (hr : peersWF room.peers = true) :
    regWF (mset reg k room) = true :=
  list_all_mset reg _ k room h hr

theorem regWF_mdelete (reg : Registry) (k : String) (h : regWF reg = true) :
    regWF (mdelete reg k) = true :=
  list_all_mdelete reg _ k h

theorem peersWF_mdelete (m : List (String × Peer)) (k : String)
    (h : peersWF m = true) : peersWF (mdelete m k) = true := by
  rw [peersWF_iff] at h ⊢
  refine ⟨keysNodup_mdelete m k h.1, keysMatch_mdelete m k h.2.1, ?_⟩
  exact le_trans (hostsOf_mdelete_le m k) h.2.2

theorem peersWF_mset_nonhost (m : List (String × Peer)) (k : String)
    (v : Peer) (h : peersWF m = true) (hv : v.userId = k)
    (hh : v.isHost = false) : peersWF (mset m k v) = true := by
  rw [peersWF_iff] at h ⊢
  refine ⟨keysNodup_mset m k v h.1, keysMatch_mset m k v h.2.1 hv, ?_⟩
  exact le_trans (hostsOf_mset_false m k v hh) h.2.2

theorem peersWF_mupdate_nonhost (m : List (String × Peer)) (k : String)
    (f : Peer → Peer) (h : peersWF m = true)
    (hf : ∀ p, (f p).userId = p.userId) (hh : ∀ p, (f p).isHost = false) :
    peersWF (mupdate m k f) = true := by
  rw [peersWF_iff] at h ⊢
  refine ⟨keysNodup_mupdate m k f h.1, keysMatch_mupdate m k f h.2.1 hf, ?_⟩
  exact le_trans (hostsOf_mupdate_le_false m k f hh) h.2.2

theorem peersWF_mupdate_preserve (m : List (String × Peer)) (k : String)
    (f : Peer → Peer) (h : peersWF m = true)
    (hf : ∀ p, (f p).userId = p.userId) (hh : ∀ p, (f p).isHost = p.isHost) :
    peersWF (mupdate m k f) = true := by
  rw [peersWF_iff] at h ⊢
  refine ⟨keysNodup_mupdate m k f h.1, keysMatch_mupdate m k f h.2.1 hf, ?_⟩
  rw [hostsOf_mupdate_eq_preserve m k f hh]
  exact h.2.2

/-- After deleting the unique host of a well-formed peer map, promoting the
first remaining peer restores well-formedness with exactly one host. -/
theorem peersWF_promote_head (k : String) (q : Peer)
    (rest : List (String × Peer))
    (hwf : peersWF ((k, q) :: rest) = true)
    (h0 : hostsOf ((k, q) :: rest) = 0) :
    peersWF ((k, { q with isHost := true }) :: rest) = true ∧
      hostsOf ((k, { q with isHost := true }) :: rest) = 1 := by
  rw [peersWF_iff] at hwf
  rw [hostsOf_cons] at h0
  have hq : hostsOf rest = 0 := by
    by_cases hb : q.isHost
    · simp [hb] at h0
    · simpa [hb] using h0
  have h1 : hostsOf ((k, { q with isHost := true }) :: rest) = 1 := by
    rw [hostsOf_cons]
    simp [hq]
  refine ⟨?_, h1⟩
  rw [peersWF_iff]
  refine ⟨?_, ?_, by omega⟩
  · have := hwf.1
    simpa [keysNodup] using this
  · have := hwf.2.1
    simpa [keysMatch] using this

theorem regWF_createRoom (reg : Registry) (data : CreateRoomData)
    (meetingId : String) (now : Nat) (h : regWF reg = true) :
    regWF (createRoom reg data meetingId now).1.rooms = true := by
  unfold createRoom
  exact regWF_mset reg meetingId _ h (by simp [createRoomState, peersWF_iff,
    keysNodup, keysMatch, hostsOf, mvalues])

theorem regWF_endRoom (reg : Registry) (meetingId userId : String)
    (h : regWF reg = true) :
    regWF (endRoom reg meetingId userId).rooms = true := by
  unfold endRoom
  cases hg : mget reg meetingId with
  | none => simpa using h
  | some room =>
    simp only
    split
    · simpa using h
    · simp only
      exact regWF_mset reg meetingId _ h (regWF_mget reg meetingId room h hg)

theorem regWF_cleanup (reg : Registry) (meetingId : String)
    (h : regWF reg = true) :
    regWF (roomCleanupTask reg meetingId).1 = true := by
  unfold roomCleanupTask
  exact regWF_mdelete reg meetingId h

theorem regWF_updStatus (reg : Registry) (meetingId userId : String)
    (newMuted newVideo : Option Bool) (h : regWF reg = true) :
    regWF (updateParticipantStatus reg meetingId userId newMuted
      newVideo).rooms = true := by
  unfold updateParticipantStatus
  cases hg : mget reg meetingId with
  | none => simpa using h
  | some room =>
    simp only
    split
    · simpa using h
    · simp only
      refine regWF_mset reg meetingId _ h ?_
      exact peersWF_mupdate_preserve room.peers _ _
        (regWF_mget reg meetingId room h hg) (fun p => rfl) (fun p => rfl)

theorem regWF_consume (reg : Registry) (canConsume : String → String → Bool)
    (code userId producerId transportId consumerId : String)
    (h : regWF reg = true) :
    regWF (createConsumerHandler reg canConsume code userId producerId
      transportId consumerId).1 = true := by
  unfold createConsumerHandler
  cases hg : mget reg code with
  | none => simpa using h
  | some room =>
    simp only
    split
    · simpa using h
    · split
      · simpa using h
      · split
        · simpa using h
        · split
          · simpa using h
          · split
            · refine regWF_mset reg code _ h ?_
              exact peersWF_mupdate_preserve room.peers _ _
                (regWF_mget reg code room h hg) (fun p => rfl) (fun p => rfl)
            · simpa using h

theorem regWF_joinRoom (reg : Registry) (data : JoinRoomData)
    (sockId : String) (now : Nat) (h : regWF reg = true) :
    regWF (joinRoom reg data sockId now).1.rooms = true := by
  unfold joinRoom
  cases hg : mget reg data.code with
  | none => simpa using h
  | some room =>
    simp only
    split
    · simpa using h
    · have hwf : peersWF room.peers = true :=
        regWF_mget reg data.code room h hg
      split
      · simpa using h
      · rename_i reg1 heq
        by_cases hu : ((mvalues room.peers).find?
            (fun p => p.userId == data.userId)).isNone = true
        · rw [if_pos hu] at heq
          simp only [addParticipant, hg] at heq
          injection heq with h2
          subst h2
          refine regWF_mset reg data.code _ h ?_
          exact peersWF_mset_nonhost room.peers data.userId _ hwf rfl rfl
        · rw [if_neg hu] at heq
          simp only [updateParticipant, hg] at heq
          split at heq
          · injection heq with h2
            subst h2
            refine regWF_mset reg data.code _ h ?_
            refine peersWF_mupdate_nonhost room.peers data.userId _ hwf ?_ ?_
            · intro q
              rfl
            · intro q
              rfl
          · injection heq with h2
            subst h2
            refine regWF_mset reg data.code _ h ?_
            exact peersWF_mset_nonhost room.peers data.userId _ hwf rfl rfl

theorem regWF_leaveRoom (reg : Registry) (meetingId userId : String)
    (h : regWF reg = true) :
    regWF (leaveRoom reg meetingId userId).rooms = true := by
  unfold leaveRoom
  cases hg : mget reg meetingId with
  | none => simpa using h
  | some room =>
    simp only
    split
    · simpa using h
    · rename_i participant hf
      have hwf : peersWF room.peers = true :=
        regWF_mget reg meetingId room h hg
      have hwf1 : peersWF (mdelete room.peers participant.userId) = true :=
        peersWF_mdelete room.peers participant.userId hwf
      have hreg1 : regWF (mset reg meetingId
          { room with peers := mdelete room.peers participant.userId }) =
            true :=
        regWF_mset reg meetingId _ h hwf1
      split
      · -- the leaver was host and peers remain: transferHost
        rename_i hb
        simp only [Bool.and_eq_true, decide_eq_true_eq] at hb
        have hmem : participant ∈ mvalues room.peers :=
          List.mem_of_find?_eq_some hf
        have h0 : hostsOf (mdelete room.peers participant.userId) = 0 := by
          rw [peersWF_iff] at hwf
          exact hostsOf_mdelete_host room.peers participant hwf.1 hwf.2.1
            hmem hb.1 hwf.2.2
        cases hdel : mdelete room.peers participant.userId with
        | nil =>
          rw [hdel] at hb
          simp at hb
        | cons e rest =>
          obtain ⟨k, q⟩ := e
          rw [hdel] at hwf1 h0
          have hprom := peersWF_promote_head k q rest hwf1 h0
          simp only [transferHost, hdel, mset_mset_same]
          exact regWF_mset reg meetingId _ h hprom.1
      · -- the leaver was not host, or no peers remain
        split
        · -- no peers remain: endRoom is attempted
          split
          · simp only
            exact regWF_endRoom _ meetingId userId hreg1
          · simp only
            exact regWF_endRoom _ meetingId userId hreg1
        · exact hreg1

theorem peersWF_disconnectRoomStep (sockId code : String) (room : RoomState)
    (h : peersWF room.peers = true) :
    peersWF (disconnectRoomStep sockId code room).1.peers = true := by
  unfold disconnectRoomStep
  split
  · simpa using h
  · rename_i participant hf
    simp only [handleDisconnectedParticipant]
    have h1 : peersWF (mdelete room.peers participant.userId) = true :=
      peersWF_mdelete room.peers participant.userId h
    split
    · -- the disconnected peer was host
      rename_i hh
      have hmem : participant ∈ mvalues room.peers :=
        List.mem_of_find?_eq_some hf
      have h0 : hostsOf (mdelete room.peers participant.userId) = 0 := by
        rw [peersWF_iff] at h
        exact hostsOf_mdelete_host room.peers participant h.1 h.2.1 hmem hh
          h.2.2
      split
      · -- peers remain: transferHost
        rename_i hlen
        cases hdel : mdelete room.peers participant.userId with
        | nil =>
          rw [hdel] at hlen
          simp at hlen
        | cons e rest =>
          obtain ⟨k, q⟩ := e
          rw [hdel] at h1 h0
          have hprom := peersWF_promote_head k q rest h1 h0
          simp only [transferHost, hdel]
          exact hprom.1
      · simpa using h1
    · simpa using h1

theorem regWF_disconnectLoop (entries : List (String × RoomState))
    (sockId : String)
    (h : entries.all (fun e => peersWF e.2.peers) = true) :
    ((disconnectLoop entries sockId).1.all
      (fun e => peersWF e.2.peers)) = true := by
  induction entries with
  | nil => simp [disconnectLoop]
  | cons e rest ih =>
    obtain ⟨code, room⟩ := e
    simp only [List.all_cons, Bool.and_eq_true] at h
    simp only [disconnectLoop, List.all_cons, Bool.and_eq_true]
    exact ⟨peersWF_disconnectRoomStep sockId code room h.1, ih h.2⟩

theorem regWF_handleDisconnect (reg : Registry) (sockId : String)
    (h : regWF reg = true) :
    regWF (handleDisconnect reg sockId).rooms = true := by
  unfold handleDisconnect
  exact regWF_disconnectLoop reg sockId h

theorem regWF_stepOp (reg : Registry) (op : Op) (h : regWF reg = true) :
    regWF (stepOp reg op) = true := by
  cases op with
  | create data meetingId now => exact regWF_createRoom reg data meetingId now h
  | join data sockId now => exact regWF_joinRoom reg data sockId now h
  | leave meetingId userId => exact regWF_leaveRoom reg meetingId userId h
  | endR meetingId userId => exact regWF_endRoom reg meetingId userId h
  | disconnect sockId => exact regWF_handleDisconnect reg sockId h
  | cleanup meetingId => exact regWF_cleanup reg meetingId h
  | updStatus meetingId userId newMuted newVideo =>
    exact regWF_updStatus reg meetingId userId newMuted newVideo h
  | consume canConsume code userId producerId transportId consumerId =>
    exact regWF_consume reg canConsume code userId producerId transportId
      consumerId h

theorem regWF_runOps (ops : List Op) : regWF (runOps ops) = true := by
  unfold runOps
  have hgen : ∀ reg, regWF reg = true →
      regWF (ops.foldl stepOp reg) = true := by
    induction ops with
    | nil => intro reg h; simpa using h
    | cons op rest ih =>
      intro reg h
      simp only [List.foldl_cons]
      exact ih (stepOp reg op) (regWF_stepOp reg op h)
  exact hgen [] (by simp [regWF])

-- ============================================================================
-- CONCRETE FIXTURES
-- ============================================================================

/-- A concrete peer used by the concrete theorems below. -/
def mkPeer (uid uname sid : String) (j : Nat) (h : Bool) : Peer :=
  { userId := uid
    userName := uname
    userEmail := uname ++ "@example.com"
    socketId := sid
    isHost := h
    isMuted := false
    isVideoEnabled := true
    joinedAt := j
    rtpCapabilities := none
    transports := []
    producers := []
    consumers := [] }

/-- A concrete ongoing room with a single (host-flagged) peer. -/
def soloRoom : RoomState :=
  { code := "r1"
    title := "demo"
    description := none
    createdBy := "u1"
    createdAt := 0
    peers := [("u1", mkPeer "u1" "Ana" "s1" 5 true)]
    status := RoomStatus.ongoing
    hostName := "Ana"
    hostEmail := "ana@example.com" }

/-- A concrete ongoing room whose host is followed by two peers whose map
order disagrees with their joinedAt order. -/
def triRoom : RoomState :=
  { code := "r2"
    title := "demo2"
    description := none
    createdBy := "h"
    createdAt := 0
    peers := [("h", mkPeer "h" "Hope" "hs" 0 true),
              ("a", mkPeer "a" "Abe" "as" 10 false),
              ("b", mkPeer "b" "Bea" "bs" 5 false)]
    status := RoomStatus.ongoing
    hostName := "Hope"
    hostEmail := "hope@example.com" }

/-- The create-room request of the concrete creation theorem. -/
def demoCreate : CreateRoomData :=
  { title := "standup"
    description := none
    host := "u-host"
    hostName := "Alice"
    hostEmail := "alice@example.com" }

-- ============================================================================
-- CLAIM THEOREMS
-- ============================================================================

/-- C1: contrary to the claim, a successful createRoom call stores the room
(status ongoing) under its fresh code but admits nobody: the peer directory
is empty, so the requester is not present at all (let alone as sole peer
with isHost = true), and the returned view has no participants and the
sentinel host name. -/
theorem c1_create_room_admits_no_peer :
    (createRoom [] demoCreate "room-1" 0).2.status = RoomStatus.ongoing ∧
    mget (createRoom [] demoCreate "room-1" 0).1.rooms "room-1" =
      some (createRoomState "room-1" demoCreate 0) ∧
    (createRoomState "room-1" demoCreate 0).peers = [] ∧
    (createRoom [] demoCreate "room-1" 0).2.participants = [] ∧
    (createRoom [] demoCreate "room-1" 0).2.hostName = "Unknown" ∧
    (createRoom [] demoCreate "room-1" 0).1.err = none :=
  ⟨rfl, rfl, rfl, rfl, rfl, rfl⟩

/-- C3: contrary to the claim's expectation of the code, whenever the last
remaining peer of an ongoing room leaves (deleting it empties the peer
directory), the nested endRoom call re-validates host permission against
the now-empty peer directory and throws; leaveRoom therefore fails with the
doubly wrapped error, the room stays in the registry with status ongoing
and no peers, no removal is scheduled and nothing is broadcast. -/
theorem c3_last_leave_fails (reg : Registry) (code uid : String)
    (room : RoomState) (p : Peer)
    (hroom : mget reg code = some room)
    (hfind : (mvalues room.peers).find? (fun r => r.userId == uid) = some p)
    (hempty : mdelete room.peers p.userId = [])
    (hst : room.status = RoomStatus.ongoing) :
    (leaveRoom reg code uid).err =
      some "Failed to leave room: Failed to end room: Only the host can end the room" ∧
    mget (leaveRoom reg code uid).rooms code =
      some { room with peers := [] } ∧
    ({ room with peers := ([] : List (String × Peer)) } : RoomState).status =
      RoomStatus.ongoing ∧
    (leaveRoom reg code uid).scheduled = [] ∧
    (leaveRoom reg code uid).broadcasts = [] := by
  have hcond : (p.isHost &&
      decide (0 < (mdelete room.peers p.userId).length)) = false := by
    rw [hempty]
    simp
  have hfh : findHostFor { room with peers := mdelete room.peers p.userId }
      uid = none := by
    unfold findHostFor
    simp [mvalues, hempty]
  simp only [leaveRoom, hroom, hfind, hcond, Bool.false_eq_true, if_false]
  rw [hempty]
  simp only [List.length_nil, if_pos rfl]
  simp only [endRoom, mget_mset_self]
  rw [hempty] at hfh
  simp only [hfh, if_true]
  refine ⟨by decide, ?_, by simp [hst], trivial, trivial⟩
  rw [mget_mset_self]

/-- Witness for the C3 theorem: the sole (even host-flagged) peer of a
concrete single-peer room leaves. -/
theorem c3_last_leave_fails_witness :
    (leaveRoom [("r1", soloRoom)] "r1" "u1").err =
      some "Failed to leave room: Failed to end room: Only the host can end the room" ∧
    mget (leaveRoom [("r1", soloRoom)] "r1" "u1").rooms "r1" =
      some { soloRoom with peers := [] } ∧
    (leaveRoom [("r1", soloRoom)] "r1" "u1").scheduled = [] := by
  have h := c3_last_leave_fails [("r1", soloRoom)] "r1" "u1" soloRoom
    (mkPeer "u1" "Ana" "s1" 5 true) rfl rfl rfl rfl
  exact ⟨h.1, h.2.1, h.2.2.2.1⟩

/-- C4: after every sequence of coordinator operations from process start,
every room in the registry has at most one peer with isHost = true. -/
theorem c4_at_most_one_host (ops : List Op) :
    atMostOneHost (runOps ops) = true :=
  atMostOneHost_of_regWF (runOps ops) (regWF_runOps ops)

/-- C8 counterexample: the scheduled cleanup task deletes the registry
entry without re-checking: fired against a room whose status is ongoing
(not ended), it still removes it. -/
theorem c8_cleanup_deletes_ongoing_room :
    soloRoom.status ≠ RoomStatus.ended ∧
    mget [("r1", soloRoom)] "r1" = some soloRoom ∧
    (roomCleanupTask [("r1", soloRoom)] "r1").1 = [] := by
  refine ⟨by decide, rfl, rfl⟩

/-- C8 (amended): when the cleanup timer fires, the task unconditionally
removes the registry entry under the scheduled code — with no re-check of
presence or status — republishes the room list, and leaves every other
room untouched. -/
theorem c8_cleanup_unconditional (reg : Registry) (code : String)
    (hnd : keysNodup reg = true) :
    mget (roomCleanupTask reg code).1 code = none ∧
    (∀ c, c ≠ code → mget (roomCleanupTask reg code).1 c = mget reg c) ∧
    (roomCleanupTask reg code).2 = [Broadcast.roomListUpdated] := by
  refine ⟨mget_mdelete_self reg code hnd, ?_, rfl⟩
  intro c hc
  exact mget_mdelete_ne reg code c hc

/-- Witness for the amended C8 theorem at a concrete registry. -/
theorem c8_cleanup_unconditional_witness :
    keysNodup ([("r1", soloRoom)] : Registry) = true ∧
    mget (roomCleanupTask [("r1", soloRoom)] "r1").1 "r1" = none := by
  refine ⟨by decide, ?_⟩
  exact (c8_cleanup_unconditional [("r1", soloRoom)] "r1" (by decide)).1

/-- C6: endRoom requested by an identity that is not the room's current
host (no stored peer has both isHost and that userId) fails with the
Forbidden-class error and leaves the registry — hence the room's presence,
status and peer directory — unchanged, with no broadcast and no scheduled
removal. -/
theorem c6_end_room_non_host (reg : Registry) (code uid : String)
    (room : RoomState) (hroom : mget reg code = some room)
    (hnh : ∀ p ∈ mvalues room.peers, ¬(p.isHost = true ∧ p.userId = uid)) :
    (endRoom reg code uid).err =
      some "Failed to end room: Only the host can end the room" ∧
    (endRoom reg code uid).rooms = reg ∧
    mget (endRoom reg code uid).rooms code = some room ∧
    (endRoom reg code uid).broadcasts = [] ∧
    (endRoom reg code uid).scheduled = [] := by
  have hfind : findHostFor room uid = none := by
    unfold findHostFor
    rw [List.find?_eq_none]
    intro p hp
    have hnp := hnh p hp
    simp only [Bool.and_eq_true, beq_iff_eq]
    intro hcon
    exact hnp ⟨hcon.1, hcon.2⟩
  simp only [endRoom, hroom, hfind]
  exact ⟨trivial, trivial, trivial, trivial, trivial⟩

/-- Witness for the C6 theorem: a non-host requester at a concrete room. -/
theorem c6_end_room_non_host_witness :
    (endRoom [("r1", soloRoom)] "r1" "intruder").err =
      some "Failed to end room: Only the host can end the room" ∧
    (endRoom [("r1", soloRoom)] "r1" "intruder").rooms =
      [("r1", soloRoom)] := by
  have h := c6_end_room_non_host [("r1", soloRoom)] "r1" "intruder" soloRoom
    rfl (by decide)
  exact ⟨h.1, h.2.1⟩

/-- The handleDisconnect loop leaves every entry untouched when no peer of
any room carries the lost connection id. -/
theorem disconnectLoop_no_match (entries : List (String × RoomState))
    (sockId : String)
    (h : ∀ e ∈ entries, (mvalues e.2.peers).find?
      (fun p => p.socketId == sockId) = none) :
    disconnectLoop entries sockId = (entries, [], [], false) := by
  induction entries with
  | nil => rfl
  | cons e rest ih =>
    obtain ⟨code, room⟩ := e
    have hstep : disconnectRoomStep sockId code room =
        (room, [], [], false) := by
      unfold disconnectRoomStep
      rw [h (code, room) (List.mem_cons_self _ _)]
    have hrest : disconnectLoop rest sockId = (rest, [], [], false) :=
      ih (fun e2 he2 => h e2 (List.mem_cons_of_mem _ he2))
    simp [disconnectLoop, hstep, hrest]

/-- C7: a disconnect for a connection id matching no peer in any room is a
no-op: the registry is unchanged, no broadcast is emitted (in particular no
room-list republish), nothing is scheduled and no error is raised. -/
theorem c7_disconnect_unknown_socket (reg : Registry) (sockId : String)
    (h : ∀ e ∈ reg, ∀ p ∈ mvalues e.2.peers, p.socketId ≠ sockId) :
    handleDisconnect reg sockId =
      { rooms := reg, broadcasts := [], scheduled := [], err := none } := by
  have hloop : disconnectLoop reg sockId = (reg, [], [], false) := by
    refine disconnectLoop_no_match reg sockId ?_
    intro e he
    rw [List.find?_eq_none]
    intro p hp
    simpa using h e he p hp
  unfold handleDisconnect
  rw [hloop]
  rfl

/-- Witness for the C7 theorem at a concrete registry. -/
theorem c7_disconnect_unknown_socket_witness :
    handleDisconnect [("r1", soloRoom)] "no-such-socket" =
      { rooms := [("r1", soloRoom)], broadcasts := [], scheduled := [],
        err := none } :=
  c7_disconnect_unknown_socket [("r1", soloRoom)] "no-such-socket"
    (by decide)

/-- The in-place overwrite a reattach join applies to the stored peer:
exactly socketId, isHost, isMuted and isVideoEnabled, the latter three to
the constants joinRoom always passes. -/
def reattachUpd (sockId : String) (q : Peer) : Peer :=
  { q with
    socketId := sockId
    isHost := false
    isMuted := false
    isVideoEnabled := true }

/-- The exact effect of a reattach join (identity already stored in an
ongoing room): `updateParticipant` overwrites the stored peer in place via
`reattachUpd` and nothing else. -/
theorem joinRoom_reattach_opresult (reg : Registry) (data : JoinRoomData)
    (sockId : String) (now : Nat) (room : RoomState) (p : Peer)
    (hroom : mget reg data.code = some room)
    (hst : room.status = RoomStatus.ongoing)
    (hkm : keysMatch room.peers = true)
    (hget : mget room.peers data.userId = some p) :
    (joinRoom reg data sockId now).1 =
      { rooms := (mset reg data.code { room with
          peers := (mupdate room.peers data.userId (reattachUpd sockId)) })
        broadcasts := [Broadcast.participantJoined data.code sockId
          data.userId data.userName, Broadcast.roomListUpdated]
        scheduled := []
        err := none } := by
  have hpuid : p.userId = data.userId := by
    have := mget_all room.peers (fun e => e.2.userId == e.1) data.userId p
      hkm hget
    simpa using this
  have hmem : p ∈ mvalues room.peers :=
    mem_values_of_mget room.peers data.userId p hget
  have hsome : ((mvalues room.peers).find?
      (fun q => q.userId == data.userId)).isSome = true :=
    List.find?_isSome.mpr ⟨p, hmem, by simp [hpuid]⟩
  have hisNone : ((mvalues room.peers).find?
      (fun q => q.userId == data.userId)).isNone = false := by
    cases hf : (mvalues room.peers).find? (fun q => q.userId == data.userId)
    · rw [hf] at hsome
      simp at hsome
    · rfl
  simp only [joinRoom, hroom]
  rw [if_neg (by simp [hst])]
  rw [if_neg (by simp [hisNone])]
  simp only [updateParticipant, joinParticipantData, hroom, hget]
  rfl

/-- C5: a join by an identity already present in an ongoing room reattaches
in place: the call succeeds, the peer count and the key set of the peer
directory are unchanged (no duplicate entry), and the stored peer keeps its
recorded producers, consumers and transports (only socketId, isHost,
isMuted, isVideoEnabled are overwritten). -/
theorem c5_rejoin_idempotent (reg : Registry) (data : JoinRoomData)
    (sockId : String) (now : Nat) (room : RoomState) (p : Peer)
    (hroom : mget reg data.code = some room)
    (hst : room.status = RoomStatus.ongoing)
    (hkm : keysMatch room.peers = true)
    (hget : mget room.peers data.userId = some p) :
    (joinRoom reg data sockId now).1.err = none ∧
    ∃ room1, mget (joinRoom reg data sockId now).1.rooms data.code =
        some room1 ∧
      room1.peers.length = room.peers.length ∧
      room1.peers.map Prod.fst = room.peers.map Prod.fst ∧
      mget room1.peers data.userId = some (reattachUpd sockId p) ∧
      (reattachUpd sockId p).producers = p.producers ∧
      (reattachUpd sockId p).consumers = p.consumers ∧
      (reattachUpd sockId p).transports = p.transports := by
  rw [joinRoom_reattach_opresult reg data sockId now room p hroom hst hkm
    hget]
  refine ⟨rfl, _, mget_mset_self reg data.code _, ?_, ?_, ?_, rfl, rfl, rfl⟩
  · exact mupdate_length room.peers data.userId _
  · exact mupdate_keys room.peers data.userId _
  · rw [mget_mupdate_self, hget]
    rfl

/-- Witness for the C5 theorem at a concrete room. -/
theorem c5_rejoin_idempotent_witness :
    (joinRoom [("r2", triRoom)]
      { code := "r2", userId := "b", userName := "Bea2",
        userEmail := "b2@example.com" } "bs2" 77).1.err = none ∧
    ∃ room1, mget (joinRoom [("r2", triRoom)]
        { code := "r2", userId := "b", userName := "Bea2",
          userEmail := "b2@example.com" } "bs2" 77).1.rooms "r2" =
        some room1 ∧
      room1.peers.length = triRoom.peers.length ∧
      room1.peers.map Prod.fst = triRoom.peers.map Prod.fst ∧
      mget room1.peers "b" =
        some (reattachUpd "bs2" (mkPeer "b" "Bea" "bs" 5 false)) ∧
      (reattachUpd "bs2" (mkPeer "b" "Bea" "bs" 5 false)).producers =
        (mkPeer "b" "Bea" "bs" 5 false).producers ∧
      (reattachUpd "bs2" (mkPeer "b" "Bea" "bs" 5 false)).consumers =
        (mkPeer "b" "Bea" "bs" 5 false).consumers ∧
      (reattachUpd "bs2" (mkPeer "b" "Bea" "bs" 5 false)).transports =
        (mkPeer "b" "Bea" "bs" 5 false).transports :=
  c5_rejoin_idempotent [("r2", triRoom)]
    { code := "r2", userId := "b", userName := "Bea2",
      userEmail := "b2@example.com" } "bs2" 77 triRoom
    (mkPeer "b" "Bea" "bs" 5 false) rfl rfl (by decide) rfl

/-- C10: the full frame condition of a reattach join: exactly socketId,
isHost, isMuted and isVideoEnabled of the stored peer are overwritten (with
the fresh socket id, false, false and true respectively, whatever their
prior values — `reattachUpd`); its userId, userName, userEmail, joinedAt,
transports, producers and consumers are untouched, every other peer of the
room is untouched, and every other room of the registry is untouched. -/
theorem c10_rejoin_frame (reg : Registry) (data : JoinRoomData)
    (sockId : String) (now : Nat) (room : RoomState) (p : Peer)
    (hroom : mget reg data.code = some room)
    (hst : room.status = RoomStatus.ongoing)
    (hkm : keysMatch room.peers = true)
    (hget : mget room.peers data.userId = some p) :
    (joinRoom reg data sockId now).1.err = none ∧
    (joinRoom reg data sockId now).1.rooms =
      mset reg data.code { room with
        peers := (mupdate room.peers data.userId (reattachUpd sockId)) } ∧
    mget (mupdate room.peers data.userId (reattachUpd sockId)) data.userId =
      some (reattachUpd sockId p) ∧
    reattachUpd sockId p = { p with
      socketId := sockId
      isHost := false
      isMuted := false
      isVideoEnabled := true } ∧
    (∀ k2, k2 ≠ data.userId →
      mget (mupdate room.peers data.userId (reattachUpd sockId)) k2 =
        mget room.peers k2) ∧
    (∀ c, c ≠ data.code →
      mget (joinRoom reg data sockId now).1.rooms c = mget reg c) := by
  rw [joinRoom_reattach_opresult reg data sockId now room p hroom hst hkm
    hget]
  refine ⟨rfl, rfl, ?_, rfl, ?_, ?_⟩
  · rw [mget_mupdate_self, hget]
    rfl
  · intro k2 hk2
    exact mget_mupdate_ne room.peers data.userId k2 _ hk2
  · intro c hc
    exact mget_mset_ne reg data.code c _ hc

/-- Witness for the C10 theorem at a concrete room (the rejoining peer had
isHost = true, showing the forced overwrite to false). -/
theorem c10_rejoin_frame_witness :
    (joinRoom [("r2", triRoom)]
      { code := "r2", userId := "h", userName := "HopeX",
        userEmail := "hx@example.com" } "hs2" 99).1.err = none ∧
    mget (mupdate triRoom.peers "h" (reattachUpd "hs2")) "h" =
      some (reattachUpd "hs2" (mkPeer "h" "Hope" "hs" 0 true)) := by
  have h := c10_rejoin_frame [("r2", triRoom)]
    { code := "r2", userId := "h", userName := "HopeX",
      userEmail := "hx@example.com" } "hs2" 99 triRoom
    (mkPeer "h" "Hope" "hs" 0 true) rfl rfl (by decide) rfl
  exact ⟨h.1, h.2.2.1⟩

/-- C9: the consumer-creation guards.  For a request whose room and peer
resolve: if the peer has not yet submitted its rtpCapabilities the handler
fails with the "RTP capabilities not set" (InvalidState) error; otherwise,
when the transport and producer resolve but the engine's canConsume check
reports the peer cannot consume the producer, it fails with the
"Cannot consume" (Unsupported) error.  In both failure cases the registry
is unchanged, so no consumer is created or recorded for the peer. -/
theorem c9_create_consumer_guards (reg : Registry)
    (canConsume : String → String → Bool)
    (code userId producerId transportId consumerId : String)
    (room : RoomState) (peer : Peer)
    (hroom : mget reg code = some room)
    (hpeer : mget room.peers userId = some peer)
    (hfail : peer.rtpCapabilities = none ∨
      ((mget peer.transports transportId).isSome = true ∧
       (((mvalues room.peers).flatMap (fun p => mvalues p.producers)).find?
         (fun pr => pr.id == producerId)).isSome = true ∧
       (∀ caps, peer.rtpCapabilities = some caps →
         canConsume producerId caps = false))) :
    (createConsumerHandler reg canConsume code userId producerId transportId
      consumerId).1 = reg ∧
    (createConsumerHandler reg canConsume code userId producerId transportId
      consumerId).2 =
      some (if peer.rtpCapabilities.isNone then "RTP capabilities not set"
            else "Cannot consume") := by
  have hgp : getPeer reg code userId = some peer := by
    unfold getPeer
    rw [hroom]
    exact hpeer
  cases hcap : peer.rtpCapabilities with
  | none =>
    simp only [createConsumerHandler, hroom, hgp, hcap]
    exact ⟨trivial, rfl⟩
  | some caps =>
    rcases hfail with hnone | ⟨ht, hpr, hcc⟩
    · rw [hcap] at hnone
      exact absurd hnone (by simp)
    · obtain ⟨t, htv⟩ := Option.isSome_iff_exists.mp ht
      obtain ⟨producer, hprv⟩ := Option.isSome_iff_exists.mp hpr
      have hccf : canConsume producerId caps = false := hcc caps hcap
      simp only [createConsumerHandler, hroom, hgp, hcap, htv, hprv, hccf]
      exact ⟨rfl, by simp [hcap]⟩

/-- Witness for the C9 theorem: a peer with no capability descriptor. -/
theorem c9_create_consumer_guards_witness :
    (createConsumerHandler [("r2", triRoom)] (fun _ _ => true) "r2" "b"
      "prod-1" "t-1" "c-1").1 = [("r2", triRoom)] ∧
    (createConsumerHandler [("r2", triRoom)] (fun _ _ => true) "r2" "b"
      "prod-1" "t-1" "c-1").2 = some "RTP capabilities not set" := by
  have h := c9_create_consumer_guards [("r2", triRoom)] (fun _ _ => true)
    "r2" "b" "prod-1" "t-1" "c-1" triRoom (mkPeer "b" "Bea" "bs" 5 false)
    rfl rfl (Or.inl rfl)
  exact ⟨h.1, by simpa using h.2⟩

/-- C2 counterexample: the host of `triRoom` leaves while two peers remain;
one peer is promoted ("a", the first in the peer map's iteration order),
yet the remaining peer "b" has the strictly earliest joinedAt (5 < 10) and
is not promoted — so the successor is not the remaining peer with the
earliest joinedAt. -/
theorem c2_successor_not_earliest_joined :
    (leaveRoom [("r2", triRoom)] "r2" "h").err = none ∧
    ((mget (leaveRoom [("r2", triRoom)] "r2" "h").rooms "r2").map
      (fun r => ((mvalues r.peers).filter (fun q => q.isHost)).map
        (fun q => q.userId))) = some ["a"] ∧
    ((mget (leaveRoom [("r2", triRoom)] "r2" "h").rooms "r2").map
      (fun r => r.createdBy)) = some "a" ∧
    ((mget (leaveRoom [("r2", triRoom)] "r2" "h").rooms "r2").map
      (fun r => (mget r.peers "b").map
        (fun q => (q.joinedAt, q.isHost)))) = some (some (5, false)) ∧
    ((mget (leaveRoom [("r2", triRoom)] "r2" "h").rooms "r2").map
      (fun r => (mget r.peers "a").map (fun q => q.joinedAt))) =
      some (some 10) :=
  ⟨rfl, rfl, rfl, rfl, rfl⟩

/-- The room entry rebuilt by the handleDisconnect loop for a given code is
exactly the disconnectRoomStep image of the stored room. -/
theorem mget_disconnectLoop (entries : List (String × RoomState))
    (sockId k : String) :
    mget (disconnectLoop entries sockId).1 k =
      (mget entries k).map
        (fun room => (disconnectRoomStep sockId k room).1) := by
  induction entries with
  | nil => rfl
  | cons e rest ih =>
    obtain ⟨k1, r1⟩ := e
    by_cases h : k1 = k
    · subst h
      simp [disconnectLoop, mget]
    · simp [disconnectLoop, mget, h, ih]

/-- Every broadcast that the disconnect loop body emits for the room stored
under a code is among the loop's collected broadcasts. -/
theorem disconnectLoop_broadcast_mem (entries : List (String × RoomState))
    (sockId code : String) (room : RoomState) (b : Broadcast)
    (hget : mget entries code = some room)
    (hb : b ∈ (disconnectRoomStep sockId code room).2.1) :
    b ∈ (disconnectLoop entries sockId).2.1 := by
  induction entries with
  | nil => simp [mget] at hget
  | cons e rest ih =>
    obtain ⟨k1, r1⟩ := e
    simp only [mget] at hget
    by_cases h : k1 = code
    · subst h
      simp only [eq_self_iff_true, if_true, Option.some.injEq] at hget
      subst hget
      simp only [disconnectLoop]
      exact List.mem_append_left _ hb
    · simp only [h, if_false] at hget
      simp only [disconnectLoop]
      exact List.mem_append_right _ (ih hget)

/-- Effect of the handleDisconnect loop body on a room whose stored host
carries the lost connection and whose deletion leaves peers behind: the
first remaining peer is promoted, createdBy is updated, and the
host-transferred and participant-left broadcasts are emitted. -/
theorem disconnectRoomStep_host_eq (sockId code : String) (room : RoomState)
    (p : Peer) (k : String) (q : Peer) (rest : List (String × Peer))
    (hfind : (mvalues room.peers).find? (fun r => r.socketId == sockId) =
      some p)
    (hhost : p.isHost = true)
    (hdel : mdelete room.peers p.userId = (k, q) :: rest) :
    disconnectRoomStep sockId code room =
      ({ room with
         peers := ((k, { q with isHost := true }) :: rest)
         createdBy := q.userId },
       [Broadcast.hostTransferred code q.userId q.userName,
        Broadcast.participantLeft code p.socketId p.userId p.userName],
       [], true) := by
  unfold disconnectRoomStep
  rw [hfind]
  simp only [handleDisconnectedParticipant, hdel, hhost, if_true,
    transferHost]
  simp

/-- C2 (amended): when the current host leaves — or disconnects — while at
least one peer remains, exactly one remaining peer becomes host: the FIRST
remaining peer in the peer map's insertion/iteration order, not necessarily
the one with the earliest joinedAt; room.createdBy is updated to that
peer's identity and a host-transferred broadcast names it.  Both the
voluntary leaveRoom path and the involuntary handleDisconnect path produce
the same promoted room. -/
theorem c2_host_departure_promotes_first (reg : Registry)
    (code uid sockId : String) (room : RoomState) (p : Peer) (k : String)
    (q : Peer) (rest : List (String × Peer))
    (hroom : mget reg code = some room)
    (hwf : peersWF room.peers = true)
    (hfindLeave : (mvalues room.peers).find? (fun r => r.userId == uid) =
      some p)
    (hfindDisc : (mvalues room.peers).find? (fun r => r.socketId == sockId) =
      some p)
    (hhost : p.isHost = true)
    (hdel : mdelete room.peers p.userId = (k, q) :: rest) :
    ((leaveRoom reg code uid).err = none ∧
     mget (leaveRoom reg code uid).rooms code =
       some { room with
         peers := ((k, { q with isHost := true }) :: rest)
         createdBy := q.userId } ∧
     (leaveRoom reg code uid).broadcasts =
       [Broadcast.hostTransferred code q.userId q.userName,
        Broadcast.participantLeft code p.socketId p.userId p.userName,
        Broadcast.roomListUpdated] ∧
     (leaveRoom reg code uid).scheduled = []) ∧
    (mget (handleDisconnect reg sockId).rooms code =
       some { room with
         peers := ((k, { q with isHost := true }) :: rest)
         createdBy := q.userId } ∧
     Broadcast.hostTransferred code q.userId q.userName ∈
       (handleDisconnect reg sockId).broadcasts ∧
     (handleDisconnect reg sockId).err = none) ∧
    hostsOf ((k, { q with isHost := true }) :: rest) = 1 := by
  have hmem : p ∈ mvalues room.peers := List.mem_of_find?_eq_some hfindLeave
  have h0 : hostsOf (mdelete room.peers p.userId) = 0 := by
    rw [peersWF_iff] at hwf
    exact hostsOf_mdelete_host room.peers p hwf.1 hwf.2.1 hmem hhost hwf.2.2
  have hwf1 : peersWF (mdelete room.peers p.userId) = true :=
    peersWF_mdelete room.peers p.userId hwf
  rw [hdel] at h0 hwf1
  have hprom := peersWF_promote_head k q rest hwf1 h0
  have hstep := disconnectRoomStep_host_eq sockId code room p k q rest
    hfindDisc hhost hdel
  refine ⟨?_, ⟨?_, ?_, rfl⟩, hprom.2⟩
  · -- voluntary leave path
    have hcond : (p.isHost &&
        decide (0 < (mdelete room.peers p.userId).length)) = true := by
      rw [hhost, hdel]
      simp
    simp only [leaveRoom, hroom, hfindLeave, hcond, if_true]
    simp only [transferHost, hdel, mset_mset_same]
    refine ⟨trivial, ?_, rfl, trivial⟩
    rw [mget_mset_self]
  · -- disconnect path: the rebuilt registry entry
    unfold handleDisconnect
    simp only
    rw [mget_disconnectLoop, hroom]
    simp [hstep]
  · -- disconnect path: the host-transferred broadcast is emitted
    unfold handleDisconnect
    simp only
    refine List.mem_append_left _ ?_
    refine disconnectLoop_broadcast_mem reg sockId code room _ hroom ?_
    rw [hstep]
    simp

/-- Witness for the amended C2 theorem: the host of the concrete room
leaves (identity "h") or disconnects (socket "hs"); both paths promote "a",
the first remaining peer in iteration order, although "b" has the earliest
joinedAt. -/
theorem c2_host_departure_promotes_first_witness :
    (leaveRoom [("r2", triRoom)] "r2" "h").err = none ∧
    mget (leaveRoom [("r2", triRoom)] "r2" "h").rooms "r2" =
      some { triRoom with
        peers := (("a", { mkPeer "a" "Abe" "as" 10 false with
          isHost := true }) :: [("b", mkPeer "b" "Bea" "bs" 5 false)])
        createdBy := "a" } ∧
    mget (handleDisconnect [("r2", triRoom)] "hs").rooms "r2" =
      some { triRoom with
        peers := (("a", { mkPeer "a" "Abe" "as" 10 false with
          isHost := true }) :: [("b", mkPeer "b" "Bea" "bs" 5 false)])
        createdBy := "a" } ∧
    Broadcast.hostTransferred "r2" "a" "Abe" ∈
      (handleDisconnect [("r2", triRoom)] "hs").broadcasts := by
  have h := c2_host_departure_promotes_first [("r2", triRoom)] "r2" "h" "hs"
    triRoom (mkPeer "h" "Hope" "hs" 0 true) "a"
    (mkPeer "a" "Abe" "as" 10 false) [("b", mkPeer "b" "Bea" "bs" 5 false)]
    rfl (by decide) rfl rfl rfl rfl
  exact ⟨h.1.1, h.1.2.1, h.2.1.1, h.2.1.2.1⟩

end ASLConf
